import Mathlib

/-!
Verification of the Naboo animation step-sequencer and its CSS transition
driver (the naboo framework file of this repository).  JavaScript runtime
values that flow through the driver are modelled by `JSVal`; the sequencer
(`Naboo` class) is modelled as an explicit state machine whose observable
behaviour (events triggered, steps invoked) is recorded in a log.
-/

/-- Model of the JavaScript runtime values that flow through the naboo
transition code: `null`, `undefined`, `NaN`, (integer) numbers and strings.
The code paths under verification only ever produce integer numbers, so
numbers are modelled by `Int` (with `NaN` as a separate constructor). -/
inductive JSVal where
  | vnull
  | vundef
  | vnan
  | vnum (n : Int)
  | vstr (s : String)
deriving DecidableEq, Repr

/-- JS `ToString`, as used by `setAttribute` coercion and by `parseInt`. -/
def jsToString : JSVal → String
  | .vnull => "null"
  | .vundef => "undefined"
  | .vnan => "NaN"
  | .vnum n => toString n
  | .vstr s => s

/-- Value of a digit list read in base 10. -/
def digitsToNat (l : List Char) : Nat :=
  l.foldl (fun a c => a * 10 + (c.toNat - 48)) 0

/-- JS `ToNumber` on a string, restricted to the integer fragment that the
driver produces (attribute values written by `setAttribute` are canonical
integer strings, so neither fractional syntax nor surrounding whitespace
is modelled): the empty string converts to 0, an optionally negated
all-digit string to its value, anything else to `NaN`. -/
def jsStringToNumber (s : String) : JSVal :=
  match s.data with
  | [] => JSVal.vnum 0
  | '-' :: rest =>
    if rest.isEmpty then JSVal.vnan
    else if rest.all (fun c => c.isDigit) then JSVal.vnum (-(digitsToNat rest : Int))
    else JSVal.vnan
  | l =>
    if l.all (fun c => c.isDigit) then JSVal.vnum (digitsToNat l)
    else JSVal.vnan

/-- JS unary `+` (`ToNumber`): `null` converts to 0, `undefined` to `NaN`. -/
def toNumber : JSVal → JSVal
  | .vnull => JSVal.vnum 0
  | .vundef => JSVal.vnan
  | .vnan => JSVal.vnan
  | .vnum n => JSVal.vnum n
  | .vstr s => jsStringToNumber s

/-- JS strict equality `===`: values of different runtime types are never
strictly equal, and `NaN` is not strictly equal to anything (itself
included). -/
def strictEq : JSVal → JSVal → Bool
  | .vnull, .vnull => true
  | .vundef, .vundef => true
  | .vnum m, .vnum n => m == n
  | .vstr s, .vstr t => s == t
  | _, _ => false

/-- JS binary `+`: string concatenation when either operand is a string,
numeric addition otherwise (with `NaN` propagation). -/
def jsPlus (a b : JSVal) : JSVal :=
  match a, b with
  | .vstr _, _ => JSVal.vstr (jsToString a ++ jsToString b)
  | _, .vstr _ => JSVal.vstr (jsToString a ++ jsToString b)
  | _, _ =>
    match toNumber a, toNumber b with
    | .vnum m, .vnum n => JSVal.vnum (m + n)
    | _, _ => JSVal.vnan

/-- JS binary `-`: both operands are converted with `ToNumber`. -/
def jsSub (a b : JSVal) : JSVal :=
  match toNumber a, toNumber b with
  | .vnum m, .vnum n => JSVal.vnum (m - n)
  | _, _ => JSVal.vnan

/-- Model of `setAttribute`: the stored attribute value is the `ToString`
image of the argument. -/
def setAttrString (v : JSVal) : JSVal := JSVal.vstr (jsToString v)

/-- Leading-integer parse of a character list, after whitespace stripping:
optional sign followed by at least one digit, ignoring any trailing
characters; `none` models the `NaN` result of JS `parseInt`. -/
def parseIntCore (l : List Char) : Option Int :=
  match l with
  | '-' :: rest =>
    let ds := rest.takeWhile (fun c => c.isDigit)
    if ds.isEmpty then none else some (-(digitsToNat ds : Int))
  | '+' :: rest =>
    let ds := rest.takeWhile (fun c => c.isDigit)
    if ds.isEmpty then none else some (digitsToNat ds)
  | _ =>
    let ds := l.takeWhile (fun c => c.isDigit)
    if ds.isEmpty then none else some (digitsToNat ds)

/-- JS `parseInt(v, 10)`: convert to string, strip leading whitespace, parse
a leading optionally-signed integer; `none` models `NaN`. -/
def jsParseInt (v : JSVal) : Option Int :=
  parseIntCore ((jsToString v).data.dropWhile (fun c => c.isWhitespace))

/-- JS `x || d` applied to a `parseInt` result: `NaN` (here `none`) and `0`
are falsy, so both select the default. -/
def jsOrDefault (x : Option Int) (d : Int) : Int :=
  match x with
  | some n => if n == 0 then d else n
  | none => d

/-- Source line `let duration = parseInt(opt.duration, 10) || 400` of
`Naboo.transition`. -/
def parsedDuration (optDuration : JSVal) : Int :=
  jsOrDefault (jsParseInt optDuration) 400

/-- Source line `let delay = parseInt(opt.delay, 10) || 0` of
`Naboo.transition`. -/
def parsedDelay (optDelay : JSVal) : Int :=
  jsOrDefault (jsParseInt optDelay) 0

/-- Duration in milliseconds after the full source pipeline of
`Naboo.transition`: parse-then-default, then `if (Naboo.tool.off) duration
= 0`, then `duration = Math.max(duration, 0)`.  `toolOff` is the cached
capability probe `Naboo.tool.off` (true when the platform reports no
transition support). -/
def durationMs (toolOff : Bool) (optDuration : JSVal) : Int :=
  max (if toolOff then 0 else parsedDuration optDuration) 0

/-- Source line `duration /= 1000`: milliseconds to seconds for the CSS
string output. -/
def durationSec (toolOff : Bool) (optDuration : JSVal) : Rat :=
  (durationMs toolOff optDuration : Rat) / 1000

/-- Source line `delay /= 1000` (delay is not clamped in the source). -/
def delaySec (optDelay : JSVal) : Rat :=
  (parsedDelay optDelay : Rat) / 1000

/-- The JS `Array.prototype.indexOf` loop on a string list, carrying the
current index (`-1` when the element is not found). -/
def indexOfFrom (l : List String) (s : String) (i : Int) : Int :=
  match l with
  | [] => -1
  | x :: rest => if x == s then i else indexOfFrom rest s (i + 1)

/-- The call `list.indexOf(v)` where `v` is the (possibly absent) option field; an
absent (or non-string) option value matches nothing. -/
def jsIndexOf (l : List String) (v : Option String) : Int :=
  match v with
  | none => -1
  | some s => indexOfFrom l s 0

/-- The `easeArr` enum of `Naboo.transition`. -/
def easeArr : List String :=
  ["ease", "linear", "ease-in", "ease-out", "ease-in-out"]

/-- Source line `let ease = (easeArr.indexOf(opt.ease) > -1) ? opt.ease :
'ease'`. -/
def resolveEase (optEase : Option String) : String :=
  if jsIndexOf easeArr optEase > -1 then optEase.getD "ease" else "ease"

/-- The mode enum of the `animate` plugin (only `transition` is
implemented). -/
def modeArr : List String := ["transition"]

/-- Source line `opt.mode = (['transition'].indexOf(opt.mode) > -1) ?
opt.mode : 'transition'` of the `animate` plugin. -/
def resolveMode (optMode : Option String) : String :=
  if jsIndexOf modeArr optMode > -1 then optMode.getD "transition" else "transition"

/-- The `data-naboo` counter increment at the head of `Naboo.transition`:
`let nabooNum = dom.getAttribute('data-naboo'); if (nabooNum !==
+nabooNum) nabooNum = 0; dom.setAttribute('data-naboo', nabooNum + 1)`.
The argument is the current attribute value (`vnull` when absent). -/
def transitionIncrement (attr : JSVal) : JSVal :=
  let nabooNum := attr
  let nabooNum := if strictEq nabooNum (toNumber nabooNum) then nabooNum else JSVal.vnum 0
  setAttrString (jsPlus nabooNum (JSVal.vnum 1))

/-- The counter decrement in `wrappedCallback`:
`dom.setAttribute('data-naboo', +dom.getAttribute('data-naboo') - 1)`. -/
def transitionDecrement (attr : JSVal) : JSVal :=
  setAttrString (jsSub attr (JSVal.vnum 1))

/-- The reset guard in `wrappedCallback`:
`(+dom.getAttribute('data-naboo') === 0) && setCss(dom, cssReset)`. -/
def cssResetFires (attr : JSVal) : Bool :=
  strictEq (toNumber attr) (JSVal.vnum 0)

/-- Observable platform-facing state of one DOM target as touched by
`Naboo.transition`: the `data-naboo` attribute, counts of style writes,
registered transition-end listeners, scheduled fallback timers, applied
`cssReset` writes and user-callback invocations. -/
structure DomState where
  nabooAttr : JSVal
  styleWrites : Nat
  listeners : Nat
  timersSet : Nat
  resets : Nat
  cbCount : Nat
deriving DecidableEq, Repr

/-- Setup phase of one `Naboo.transition(dom, property, opt)` call.
`domTruthy` is the JS truthiness of the `dom` argument (false for
`null`/`undefined`); `propClass` is `Object.prototype.toString.call
(property)`.  When the guard passes, the source increments the
`data-naboo` counter, registers the transition-end listener when the
clamped duration is positive, schedules one fallback timer, and applies
the computed css values with `setCss`; otherwise the body is skipped
entirely. -/
def Naboo.transition (domTruthy : Bool) (propClass : String) (toolOff : Bool)
    (optDuration : JSVal) (w : DomState) : DomState :=
  if domTruthy && (propClass == "[object Object]") then
    { w with
        nabooAttr := transitionIncrement w.nabooAttr,
        listeners := w.listeners + (if 0 < durationMs toolOff optDuration then 1 else 0),
        timersSet := w.timersSet + 1,
        styleWrites := w.styleWrites + 1 }
  else w

/-- Body of `wrappedCallback` once its guards have passed (listener
removal, counter decrement, zero-gated `cssReset`, user callback), acting
on the DOM-target state. -/
def wrappedCallbackBody (w : DomState) : DomState :=
  let a := transitionDecrement w.nabooAttr
  let w1 := { w with nabooAttr := a, listeners := w.listeners - 1 }
  let w2 := if cssResetFires a then { w1 with resets := w1.resets + 1 } else w1
  { w2 with cbCount := w2.cbCount + 1 }

/-- A native transition-completion event as inspected by
`wrappedCallback`: its `elapsedTime` and whether `event.target ===
event.currentTarget`. -/
structure TransEvent where
  elapsedTime : Rat
  targetIsCurrent : Bool
deriving DecidableEq, Repr

/-- Closure state of one `Naboo.transition` completion handler: the
`fired` flag, whether the listener is still registered, whether the
fallback timer is still pending, and how many times the handler body has
executed. -/
structure CbState where
  fired : Bool
  listener : Bool
  timerPending : Bool
  bodyRuns : Nat
deriving DecidableEq, Repr

/-- Function `wrappedCallback(event)` from the source: a defined event whose
`elapsedTime` differs from `duration + delay` is ignored, as is a bubbled
event (`event.target !== event.currentTarget`); otherwise the listener is
removed, `fired` is set and the body runs.  An undefined `event` is the
fallback-timer path, which removes the listener unconditionally. -/
def wrappedCallback (dd : Rat) (ev : Option TransEvent) (s : CbState) : CbState :=
  match ev with
  | some e =>
    if e.elapsedTime ≠ dd then s
    else if e.targetIsCurrent = false then s
    else { s with listener := false, fired := true, bodyRuns := s.bodyRuns + 1 }
  | none => { s with listener := false, fired := true, bodyRuns := s.bodyRuns + 1 }

/-- The two external stimuli that can reach the completion handler: a
native transition-end event, or the fallback `setTimeout` firing. -/
inductive CbInput where
  | native (e : TransEvent)
  | timeout
deriving DecidableEq, Repr

/-- Dispatch of one stimulus: a native event reaches `wrappedCallback`
only while the listener is registered; the timer body is
`() => (!fired && wrappedCallback())` and consumes the pending timer. -/
def cbStep (dd : Rat) (s : CbState) : CbInput → CbState
  | .native e => if s.listener then wrappedCallback dd (some e) s else s
  | .timeout =>
    if s.timerPending then
      let s1 := { s with timerPending := false }
      if s1.fired then s1 else wrappedCallback dd none s1
    else s

/-- Handler state right after setup: `(duration > 0) &&
dom.addEventListener(...)` registers the listener only for positive
duration, and one fallback timer is always scheduled. -/
def cbInit (durationPos : Bool) : CbState :=
  { fired := false, listener := durationPos, timerPending := true, bodyRuns := 0 }

/-- Run of one completion handler against an arbitrary stimulus
sequence. -/
def cbRun (dd : Rat) (durationPos : Bool) (evs : List CbInput) : CbState :=
  evs.foldl (cbStep dd) (cbInit durationPos)

/-- Observable events of one sequence: `trigger(name)` firings and step
invocations (`this.steps[this._index].call(this)`), in execution order. -/
inductive NEvent where
  | trig (name : String)
  | invoke (i : Int)
deriving DecidableEq, Repr

/-- The `_handlers` map: event name to ordered listener list (listeners
identified by opaque ids, insertion order significant, duplicates
permitted). -/
abbrev HMap := List (String × List Nat)

/-- Lookup `this._handlers[name]` (`none` models an absent key). -/
def hGet (h : HMap) (name : String) : Option (List Nat) :=
  match h with
  | [] => none
  | (k, w) :: rest => if k == name then some w else hGet rest name

/-- Assignment `this._handlers[name] = v`: updates the key in place when
present, appends it otherwise (JS object property-order semantics). -/
def hSet (h : HMap) (name : String) (v : List Nat) : HMap :=
  match h with
  | [] => [(name, v)]
  | (k, w) :: rest => if k == name then (k, v) :: rest else (k, w) :: hSet rest name v

/-- The `Array.prototype.splice(i, 1)` call of `off`: removes the element
at position `i` when `i < length`, otherwise changes nothing. -/
def splice1 (l : List Nat) (i : Nat) : List Nat :=
  l.take i ++ l.drop (i + 1)

/-- The search loop of `off(name, fn)`: `let i = 0; for (let len =
handlers.length; i < len; i++) { if (handlers[i] === fn) break }` — the
index of the first occurrence, or the length when absent. -/
def findBreakIdx (l : List Nat) (f : Nat) : Nat :=
  match l with
  | [] => 0
  | x :: rest => if x == f then 0 else findBreakIdx rest f + 1

/-- State of one `Naboo` instance.  The `steps` array is abstracted by its
length (step bodies are external closures whose only interaction with the
instance is calling `next`); `index` is `_index`, `handlers` is
`_handlers`, and `log` records the observable events. -/
structure Naboo where
  numSteps : Nat
  index : Int
  handlers : HMap
  canceled : Bool
  log : List NEvent
deriving DecidableEq, Repr

/-- The `Naboo` constructor: `this.steps = []; this._index = -1;
this._handlers = {}; this.canceled = false`. -/
def Naboo.new : Naboo :=
  { numSteps := 0, index := -1, handlers := [], canceled := false, log := [] }

/-- The step enqueue performed by every registered plugin's instance
method: `this.steps.push(() => fn.apply(this, args)); return this`. -/
def Naboo.pushStep (s : Naboo) : Naboo :=
  { s with numSteps := s.numSteps + 1 }

/-- A `Naboo` instance after `n` chained plugin calls have appended `n`
steps. -/
def Naboo.init : Nat → Naboo
  | 0 => Naboo.new
  | n + 1 => (Naboo.init n).pushStep

/-- Method `trigger(name)`: fires the event (listener invocation has no effect on
the instance state; the firing is logged). -/
def Naboo.trigger (s : Naboo) (name : String) : Naboo :=
  { s with log := s.log ++ [NEvent.trig name] }

/-- Method `next()`: no-op when `canceled`; otherwise increments `_index`, then
triggers `end` when the cursor has moved past the last step and invokes
the step at the cursor otherwise. -/
def Naboo.next (s : Naboo) : Naboo :=
  if s.canceled then s
  else
    let i := s.index + 1
    if i ≥ (s.numSteps : Int) then
      { s with index := i, log := s.log ++ [NEvent.trig "end"] }
    else
      { s with index := i, log := s.log ++ [NEvent.invoke i] }

/-- Method `cancel()`: sets the `canceled` flag and nothing else. -/
def Naboo.cancel (s : Naboo) : Naboo :=
  { s with canceled := true }

/-- Method `on(name, fn)`: `this._handlers[name] || (this._handlers[name] = []);
this._handlers[name].push(fn)`. -/
def Naboo.on (s : Naboo) (name : String) (f : Nat) : Naboo :=
  { s with handlers := hSet s.handlers name ((hGet s.handlers name).getD [] ++ [f]) }

/-- Method `off(name, fn)`: with no name — or an empty-string name, which is
falsy under the source's `if (!name)` test — replaces `_handlers` by a
fresh object; with a name but no function, sets that name's list to `[]`;
with both, splices out the first occurrence of `fn` when that name holds
an array (the break-loop index equals the length when `fn` is absent, so
the splice is then a no-op), and does nothing when it holds none. -/
def Naboo.off (s : Naboo) (name : Option String) (fn : Option Nat) : Naboo :=
  match name with
  | none => { s with handlers := [] }
  | some nm =>
    if nm == "" then { s with handlers := [] }
    else
      match fn with
      | none => { s with handlers := hSet s.handlers nm [] }
      | some f =>
        match hGet s.handlers nm with
        | some hs => { s with handlers := hSet s.handlers nm (splice1 hs (findBreakIdx hs f)) }
        | none => s

/-- Method `start(fn)`: registers `fn` as an `end` listener when supplied, fires
`start`, then calls `next`. -/
def Naboo.start (s : Naboo) (fn : Option Nat) : Naboo :=
  (((match fn with | some f => s.on "end" f | none => s)).trigger "start").next

/-- Iteration of `k` further `next()` calls (each one an `advance` issued by `start` or
by a step's continuation). -/
def Naboo.nexts : Nat → Naboo → Naboo
  | 0, s => s
  | k + 1, s => (Naboo.nexts k s).next

/-- A complete run of a sequence with `n` steps in which every step calls
its continuation exactly once: `start()` issues the first `next`, and each
of the `n` invoked steps issues one more. -/
def Naboo.run (n : Nat) : Naboo :=
  Naboo.nexts n ((Naboo.init n).start none)

/-- The wrapped callback installed by the `animate` plugin: `opt.cb =
function () { cb && cb(); next() }` — the user callback runs first, then
the continuation. -/
def animateCallback (cbRuns : Nat) (s : Naboo) : Nat × Naboo :=
  (cbRuns + 1, s.next)

/-- Number of `end` firings recorded in a log. -/
def countEnd : List NEvent → Nat
  | [] => 0
  | NEvent.trig s :: rest => (if s = "end" then 1 else 0) + countEnd rest
  | _ :: rest => countEnd rest

/-- The step-invocation events of steps `0, …, k-1` in order. -/
def invokes (k : Nat) : List NEvent :=
  (List.range k).map fun i => NEvent.invoke i

/-- One firing of the completion callback the `p` (parallel) plugin
installs on each child: `() => (n-- === 0 && next())`.  The state is the
shared counter together with the number of times `next` has been invoked;
post-decrement compares the counter against 0 before decrementing it. -/
def pCallback : Int × Nat → Int × Nat
  | (n, c) => (n - 1, if n == 0 then c + 1 else c)

/-- Counter state of the `p` plugin after `k` child `end` events, starting
from the initial counter `n0 = args.length`. -/
def pRun (n0 : Int) : Nat → Int × Nat
  | 0 => (n0, 0)
  | k + 1 => pCallback (pRun n0 k)

/-- The `p` plugin with `numChildren` child sequences, each of which
fires its `end` event exactly once: the counter starts at
`args.length = numChildren` and the callback fires once per child. -/
def pluginP (numChildren : Nat) : Int × Nat :=
  pRun numChildren numChildren

/-- DOM-target state after two overlapping `Naboo.transition` invocations
(duration 400ms, supported platform) on a target whose `data-naboo`
attribute is initially absent. -/
def overlapTwice : DomState :=
  Naboo.transition true "[object Object]" false (JSVal.vnum 400)
    (Naboo.transition true "[object Object]" false (JSVal.vnum 400)
      { nabooAttr := JSVal.vnull, styleWrites := 0, listeners := 0, timersSet := 0,
        resets := 0, cbCount := 0 })

/-- Invariant of a completion-handler state: the body has run exactly once
when `fired` is set and never otherwise, a fired handler has removed its
listener, and a consumed timer implies `fired`. -/
def CbInv (s : CbState) : Prop :=
  s.bodyRuns = (if s.fired then 1 else 0) ∧
  (s.fired = true → s.listener = false) ∧
  (s.timerPending = false → s.fired = true)

lemma Naboo.init_eq (n : Nat) :
    Naboo.init n = { numSteps := n, index := -1, handlers := [], canceled := false, log := [] } := by
  induction n with
  | zero => rfl
  | succ n ih => simp [Naboo.init, Naboo.pushStep, ih]

lemma Naboo.nexts_succ_inner (k : Nat) (s : Naboo) :
    Naboo.nexts (k + 1) s = Naboo.nexts k s.next := by
  induction k generalizing s with
  | zero => rfl
  | succ k ih => rw [Naboo.nexts, ih, Naboo.nexts]

lemma Naboo.nexts_canceled (k : Nat) (s : Naboo) (h : s.canceled = true) :
    Naboo.nexts k s = s := by
  induction k with
  | zero => rfl
  | succ k ih => rw [Naboo.nexts, ih, Naboo.next, if_pos h]

lemma invokes_succ (k : Nat) :
    invokes (k + 1) = invokes k ++ [NEvent.invoke k] := by
  simp [invokes, List.range_succ]

lemma Naboo.nexts_spec (n : Nat) (H : HMap) (L : List NEvent) :
    ∀ k : Nat, k ≤ n →
      Naboo.nexts k { numSteps := n, index := -1, handlers := H, canceled := false, log := L } =
        { numSteps := n, index := (k : Int) - 1, handlers := H, canceled := false,
          log := L ++ invokes k } := by
  intro k
  induction k with
  | zero => intro _; simp [Naboo.nexts, invokes]
  | succ k ih =>
    intro hk
    have hk' : k ≤ n := Nat.le_of_succ_le hk
    have hkn : (k : Int) < (n : Int) := by exact_mod_cast hk
    have hidx : (k : Int) - 1 + 1 = (k : Int) := by omega
    rw [Naboo.nexts, ih hk']
    simp only [Naboo.next, hidx]
    rw [if_neg (by simp : ¬ ((false : Bool) = true)), if_neg (by omega : ¬ ((k : Int) ≥ (n : Int)))]
    simp only [Naboo.mk.injEq, true_and, and_true]
    constructor
    · omega
    · rw [invokes_succ, ← List.append_assoc]

lemma Naboo.nexts_full (n : Nat) (H : HMap) (L : List NEvent) :
    Naboo.nexts (n + 1) { numSteps := n, index := -1, handlers := H, canceled := false, log := L } =
      { numSteps := n, index := (n : Int), handlers := H, canceled := false,
        log := (L ++ invokes n) ++ [NEvent.trig "end"] } := by
  rw [Naboo.nexts, Naboo.nexts_spec n H L n le_rfl]
  have hidx : (n : Int) - 1 + 1 = (n : Int) := by omega
  simp only [Naboo.next, hidx]
  rw [if_neg (by simp : ¬ ((false : Bool) = true)), if_pos (by omega : ((n : Int) ≥ (n : Int)))]

lemma Naboo.start_init (n : Nat) :
    (Naboo.init n).start none =
      Naboo.next { numSteps := n, index := -1, handlers := [], canceled := false,
                   log := [NEvent.trig "start"] } := by
  rw [Naboo.start, Naboo.init_eq]
  rfl

lemma countEnd_append (a b : List NEvent) :
    countEnd (a ++ b) = countEnd a + countEnd b := by
  induction a with
  | nil => simp [countEnd]
  | cons x t ih =>
    cases x with
    | trig s => simp [countEnd, ih, Nat.add_assoc]
    | invoke i => simp [countEnd, ih]

lemma countEnd_invokes (k : Nat) : countEnd (invokes k) = 0 := by
  induction k with
  | zero => rfl
  | succ k ih => rw [invokes_succ, countEnd_append, ih]; rfl

lemma Naboo.run_eq (n : Nat) :
    Naboo.run n =
      { numSteps := n, index := (n : Int), handlers := [], canceled := false,
        log := ([NEvent.trig "start"] ++ invokes n) ++ [NEvent.trig "end"] } := by
  rw [Naboo.run, Naboo.start_init, ← Naboo.nexts_succ_inner, Naboo.nexts_full]

/-- C4: for a sequence with n steps in which every step calls its
continuation exactly once, one start() call fires end exactly once, after
the last step's continuation; and end never fires when cancel() is called
after only j < n step continuations (with any number m of further
continuation calls from in-flight work). -/
theorem naboo_c4_end_once (n : Nat) :
    (Naboo.run n).log = NEvent.trig "start" :: (invokes n ++ [NEvent.trig "end"]) ∧
    countEnd (Naboo.run n).log = 1 ∧
    ∀ j m : Nat, j < n →
      countEnd (Naboo.nexts m (Naboo.cancel (Naboo.nexts j ((Naboo.init n).start none)))).log = 0 := by
  refine ⟨?_, ?_, ?_⟩
  · rw [Naboo.run_eq]
    rfl
  · rw [Naboo.run_eq]
    show countEnd (([NEvent.trig "start"] ++ invokes n) ++ [NEvent.trig "end"]) = 1
    rw [countEnd_append, countEnd_append, countEnd_invokes]
    rfl
  · intro j m hj
    have hj' : j + 1 ≤ n := hj
    rw [Naboo.start_init, ← Naboo.nexts_succ_inner, Naboo.nexts_spec n [] _ (j + 1) hj']
    rw [Naboo.nexts_canceled m _ rfl]
    show countEnd ([NEvent.trig "start"] ++ invokes (j + 1)) = 0
    rw [countEnd_append, countEnd_invokes]
    rfl

/-- Witness for C4 at n = 3, cancel after step 0's continuation, five
further continuation calls. -/
theorem naboo_c4_witness :
    countEnd (Naboo.nexts 5 (Naboo.cancel (Naboo.nexts 1 ((Naboo.init 3).start none)))).log = 0 :=
  (naboo_c4_end_once 3).2.2 1 5 (by decide)

/-- C5: cancel() only sets the canceled flag — the cursor, handlers and
log are untouched, every subsequent next() call is a no-op, and the
callback wrapper installed by the animate plugin still runs the user
callback (incrementing its run count) even on a canceled sequence, while
the sequence itself does not progress. -/
theorem naboo_c5_cancel_noop (s : Naboo) (k c : Nat) :
    Naboo.nexts k (Naboo.cancel s) = Naboo.cancel s ∧
    (Naboo.cancel s).log = s.log ∧
    (Naboo.cancel s).index = s.index ∧
    (Naboo.cancel s).handlers = s.handlers ∧
    (animateCallback c (Naboo.cancel s)).1 = c + 1 ∧
    (animateCallback c (Naboo.cancel s)).2 = Naboo.cancel s := by
  refine ⟨Naboo.nexts_canceled k _ rfl, rfl, rfl, rfl, rfl, ?_⟩
  show (Naboo.cancel s).next = Naboo.cancel s
  simp [Naboo.next, Naboo.cancel]

/-- C6: after start() and k < n step continuations, the log shows exactly
steps 0, …, k invoked in append order: step i+1 is only ever invoked by
the continuation call that follows step i's invocation. -/
theorem naboo_c6_append_order (n k : Nat) (h : k < n) :
    (Naboo.nexts k ((Naboo.init n).start none)).log =
      NEvent.trig "start" :: invokes (k + 1) := by
  rw [Naboo.start_init, ← Naboo.nexts_succ_inner, Naboo.nexts_spec n [] _ (k + 1) h]
  rfl

/-- Witness for C6 at n = 3, k = 1. -/
theorem naboo_c6_witness :
    (Naboo.nexts 1 ((Naboo.init 3).start none)).log = NEvent.trig "start" :: invokes 2 :=
  naboo_c6_append_order 3 1 (by decide)

lemma cbInv_init (dp : Bool) : CbInv (cbInit dp) := by
  refine ⟨rfl, ?_, ?_⟩ <;> simp [cbInit]

lemma cbStep_inv (dd : Rat) (i : CbInput) (s : CbState) (h : CbInv s) :
    CbInv (cbStep dd s i) := by
  obtain ⟨h1, h2, h3⟩ := h
  cases i with
  | native e =>
    by_cases hl : s.listener = true
    · have hf : s.fired = false := by
        cases hf : s.fired
        · rfl
        · rw [h2 hf] at hl; exact absurd hl (by simp)
      rw [cbStep, if_pos hl, wrappedCallback]
      by_cases he : e.elapsedTime = dd
      · rw [if_neg (by simpa using he)]
        by_cases ht : e.targetIsCurrent = false
        · rw [if_pos ht]; exact ⟨h1, h2, h3⟩
        · rw [if_neg ht]
          refine ⟨?_, fun _ => rfl, fun _ => rfl⟩
          simp [h1, hf]
      · rw [if_pos (by simpa using he)]; exact ⟨h1, h2, h3⟩
    · rw [cbStep, if_neg hl]; exact ⟨h1, h2, h3⟩
  | timeout =>
    by_cases hp : s.timerPending = true
    · rw [cbStep, if_pos hp]
      by_cases hf : s.fired = true
      · rw [if_pos hf]
        exact ⟨by simpa using h1, fun _ => h2 hf, fun _ => hf⟩
      · rw [if_neg hf]
        have hf' : s.fired = false := by simpa using hf
        refine ⟨?_, fun _ => rfl, fun _ => rfl⟩
        simp [wrappedCallback, h1, hf']
    · rw [cbStep, if_neg hp]; exact ⟨h1, h2, h3⟩

lemma cbStep_fired_mono (dd : Rat) (i : CbInput) (s : CbState) (h : s.fired = true) :
    (cbStep dd s i).fired = true := by
  cases i with
  | native e =>
    by_cases hl : s.listener = true
    · rw [cbStep, if_pos hl, wrappedCallback]
      by_cases he : e.elapsedTime = dd
      · rw [if_neg (by simpa using he)]
        by_cases ht : e.targetIsCurrent = false
        · rw [if_pos ht]; exact h
        · rw [if_neg ht]
      · rw [if_pos (by simpa using he)]; exact h
    · rw [cbStep, if_neg hl]; exact h
  | timeout =>
    by_cases hp : s.timerPending = true
    · rw [cbStep, if_pos hp, if_pos (by simpa using h)]
      exact h
    · rw [cbStep, if_neg hp]; exact h

lemma cbFoldl_inv (dd : Rat) :
    ∀ (evs : List CbInput) (s : CbState), CbInv s → CbInv (evs.foldl (cbStep dd) s)
  | [], _, h => h
  | i :: rest, s, h => cbFoldl_inv dd rest (cbStep dd s i) (cbStep_inv dd i s h)

lemma cbFoldl_fired_mono (dd : Rat) :
    ∀ (evs : List CbInput) (s : CbState), s.fired = true →
      (evs.foldl (cbStep dd) s).fired = true
  | [], _, h => h
  | i :: rest, s, h => cbFoldl_fired_mono dd rest (cbStep dd s i) (cbStep_fired_mono dd i s h)

lemma cbFoldl_timeout_fired (dd : Rat) :
    ∀ (evs : List CbInput) (s : CbState), CbInv s → CbInput.timeout ∈ evs →
      (evs.foldl (cbStep dd) s).fired = true := by
  intro evs
  induction evs with
  | nil => intro s _ hmem; exact absurd hmem (by simp)
  | cons a rest ih =>
    intro s hinv hmem
    rw [List.foldl_cons]
    rcases List.mem_cons.mp hmem with ha | ha
    · have hstep : (cbStep dd s CbInput.timeout).fired = true := by
        obtain ⟨_, _, h3⟩ := hinv
        by_cases hp : s.timerPending = true
        · rw [cbStep, if_pos hp]
          by_cases hf : s.fired = true
          · rw [if_pos hf]; exact hf
          · rw [if_neg hf]; rfl
        · rw [cbStep, if_neg hp]
          exact h3 (by simpa using hp)
      rw [← ha]
      exact cbFoldl_fired_mono dd rest _ hstep
    · exact ih (cbStep dd s a) (cbStep_inv dd a s hinv) ha

/-- C7: for one transition invocation, under every interleaving of native
transition-end events (bubbled or not, matching elapsed time or not) and
the fallback timer, the handler body runs at most once; and since the
fallback timer always eventually fires, any stimulus sequence containing
the timer firing makes the body run exactly once — never twice even when
the other path would fire afterwards. -/
theorem naboo_c7_exactly_once (dd : Rat) (durationPos : Bool) (evs : List CbInput) :
    (cbRun dd durationPos evs).bodyRuns ≤ 1 ∧
    (CbInput.timeout ∈ evs → (cbRun dd durationPos evs).bodyRuns = 1) := by
  have hinv : CbInv (cbRun dd durationPos evs) :=
    cbFoldl_inv dd evs (cbInit durationPos) (cbInv_init durationPos)
  obtain ⟨h1, _, _⟩ := hinv
  constructor
  · rw [h1]; split <;> omega
  · intro hmem
    have hf : (cbRun dd durationPos evs).fired = true :=
      cbFoldl_timeout_fired dd evs (cbInit durationPos) (cbInv_init durationPos) hmem
    rw [h1, if_pos hf]

/-- Witness for C7: duration + delay of 1 second, listener registered, the
single stimulus being the fallback timer. -/
theorem naboo_c7_witness :
    (cbRun 1 true [CbInput.timeout]).bodyRuns = 1 :=
  (naboo_c7_exactly_once 1 true [CbInput.timeout]).2 (by simp)

lemma indexOfFrom_not_mem :
    ∀ (l : List String) (s : String) (i : Int), s ∉ l → indexOfFrom l s i = -1 := by
  intro l
  induction l with
  | nil => intro s i _; rfl
  | cons x rest ih =>
    intro s i h
    have hx : (x == s) = false := by
      simp only [beq_eq_false_iff_ne]
      rintro rfl
      exact h (List.mem_cons_self x rest)
    rw [indexOfFrom, hx, if_neg (by simp)]
    exact ih s (i + 1) (fun hm => h (List.mem_cons_of_mem x hm))

lemma indexOfFrom_ge :
    ∀ (l : List String) (s : String) (i : Int), s ∈ l → i ≤ indexOfFrom l s i := by
  intro l
  induction l with
  | nil => intro s i h; exact absurd h (by simp)
  | cons x rest ih =>
    intro s i h
    by_cases hx : (x == s) = true
    · rw [indexOfFrom, if_pos hx]
    · rw [indexOfFrom, if_neg hx]
      have hm : s ∈ rest := by
        rcases List.mem_cons.mp h with rfl | hm
        · exact absurd (by simp : (s == s) = true) hx
        · exact hm
      have := ih s (i + 1) hm
      omega

lemma resolveEase_spec (s : String) :
    resolveEase (some s) = if s ∈ easeArr then s else "ease" := by
  by_cases h : s ∈ easeArr
  · have h0 := indexOfFrom_ge easeArr s 0 h
    rw [resolveEase, if_pos (by simpa [jsIndexOf] using (by omega : (0 : Int) - 1 < indexOfFrom easeArr s 0)), if_pos h]
    rfl
  · have h0 := indexOfFrom_not_mem easeArr s 0 h
    rw [resolveEase, if_neg (by simp [jsIndexOf, h0]), if_neg h]

lemma resolveMode_spec (m : Option String) : resolveMode m = "transition" := by
  cases m with
  | none => rfl
  | some s =>
    by_cases h : s = "transition"
    · subst h; rfl
    · have h0 : indexOfFrom modeArr s 0 = -1 :=
        indexOfFrom_not_mem modeArr s 0 (by simpa [modeArr] using h)
      rw [resolveMode, if_neg (by simp [jsIndexOf, h0])]

/-- C8: an ease option outside the enum is silently coerced to ease (for
example bounce), an in-enum ease is kept, an absent ease defaults to
ease, and every mode other than transition (for example keyframes) is
silently coerced to transition; both resolutions are total functions, so
no error is ever raised for out-of-enum options. -/
theorem naboo_c8_enum_coercion :
    resolveEase (some "bounce") = "ease" ∧
    resolveMode (some "keyframes") = "transition" ∧
    (∀ s : String, resolveEase (some s) = if s ∈ easeArr then s else "ease") ∧
    resolveEase none = "ease" ∧
    (∀ m : Option String, resolveMode m = "transition") := by
  refine ⟨by decide, by decide, resolveEase_spec, rfl, resolveMode_spec⟩

lemma hGet_hSet_self (h : HMap) (nm : String) (v : List Nat) :
    hGet (hSet h nm v) nm = some v := by
  induction h with
  | nil => simp [hGet, hSet]
  | cons p rest ih =>
    by_cases hp : (p.1 == nm) = true
    · rw [hSet]
      cases p with
      | mk k w => simp only at hp; rw [if_pos hp, hGet, if_pos hp]
    · rw [hSet]
      cases p with
      | mk k w =>
        simp only at hp
        rw [if_neg hp, hGet, if_neg hp]
        exact ih

lemma hGet_hSet_ne (h : HMap) (nm other : String) (v : List Nat) (hne : other ≠ nm) :
    hGet (hSet h nm v) other = hGet h other := by
  induction h with
  | nil =>
    simp only [hSet, hGet]
    rw [if_neg (by simpa using fun e => hne e.symm)]
  | cons p rest ih =>
    cases p with
    | mk k w =>
      by_cases hp : (k == nm) = true
      · rw [hSet, if_pos hp, hGet, hGet]
        have hk : k = nm := by simpa using hp
        subst hk
        rw [if_neg (by simpa using fun e => hne e.symm), if_neg (by simpa using fun e => hne e.symm)]
      · rw [hSet, if_neg hp, hGet, hGet]
        by_cases ho : (k == other) = true
        · rw [if_pos ho, if_pos ho]
        · rw [if_neg ho, if_neg ho]
          exact ih

lemma hSet_hSet (h : HMap) (nm : String) (v w : List Nat) :
    hSet (hSet h nm v) nm w = hSet h nm w := by
  induction h with
  | nil => simp [hSet]
  | cons p rest ih =>
    cases p with
    | mk k u =>
      by_cases hp : (k == nm) = true
      · rw [hSet, if_pos hp, hSet, if_pos hp, hSet, if_pos hp]
      · rw [hSet, if_neg hp, hSet, if_neg hp, hSet, if_neg hp, ih]

lemma splice1_findBreakIdx_not_mem :
    ∀ (l : List Nat) (f : Nat), f ∉ l → splice1 l (findBreakIdx l f) = l := by
  intro l
  induction l with
  | nil => intro f _; rfl
  | cons x rest ih =>
    intro f h
    have hx : (x == f) = false := by
      simp only [beq_eq_false_iff_ne]
      rintro rfl
      exact h (List.mem_cons_self x rest)
    rw [findBreakIdx, hx, if_neg (by simp)]
    show (x :: rest).take (findBreakIdx rest f + 1) ++ (x :: rest).drop (findBreakIdx rest f + 1 + 1) = x :: rest
    rw [List.take_succ_cons, List.drop_succ_cons, List.cons_append]
    have := ih f (fun hm => h (List.mem_cons_of_mem x hm))
    rw [splice1] at this
    rw [this]

/-- C9 (amended): for a nonempty event name, off(name) leaves every other
name's listener list unchanged and is idempotent, off(name, fn) with an fn
not present in that name's list (in particular when no list exists) leaves
the whole handler map unchanged, and off() with no arguments clears every
listener for every name; all cases are total, so none can throw.  (For the
empty-string name the source's truthiness test makes off behave like the
no-argument form — see the counterexample.) -/
theorem naboo_c9_off_amended (s : Naboo) (nm other : String) (f : Nat) (hnm : nm ≠ "") :
    (other ≠ nm → hGet (s.off (some nm) none).handlers other = hGet s.handlers other) ∧
    ((s.off (some nm) none).off (some nm) none).handlers = (s.off (some nm) none).handlers ∧
    (f ∉ (hGet s.handlers nm).getD [] →
      ∀ n2, hGet (s.off (some nm) (some f)).handlers n2 = hGet s.handlers n2) ∧
    (∀ n2, hGet (s.off none none).handlers n2 = none) := by
  have hb : (nm == "") = false := by simpa using hnm
  refine ⟨?_, ?_, ?_, ?_⟩
  · intro hne
    rw [Naboo.off]
    rw [if_neg (by simp [hb])]
    exact hGet_hSet_ne s.handlers nm other [] hne
  · rw [Naboo.off, if_neg (by simp [hb]), Naboo.off, if_neg (by simp [hb])]
    exact hSet_hSet s.handlers nm [] []
  · intro hf n2
    rw [Naboo.off, if_neg (by simp [hb])]
    cases hh : hGet s.handlers nm with
    | none => rfl
    | some hs =>
      have hfs : f ∉ hs := by
        rw [hh] at hf
        simpa using hf
      show hGet (hSet s.handlers nm (splice1 hs (findBreakIdx hs f))) n2 = hGet s.handlers n2
      rw [splice1_findBreakIdx_not_mem hs f hfs]
      by_cases hn : n2 = nm
      · subst hn
        rw [hGet_hSet_self, hh]
      · exact hGet_hSet_ne s.handlers nm n2 hs hn
  · intro n2
    rfl

/-- Counterexample to C9 as stated: the source guard `if (!name)` tests JS
truthiness, and the empty string is falsy, so `off("")` clears the
listener list of every other event name (here "a") instead of leaving it
untouched. -/
theorem naboo_c9_empty_name_counterexample :
    hGet ((Naboo.new.on "a" 1).off (some "") none).handlers "a" = none ∧
    hGet (Naboo.new.on "a" 1).handlers "a" = some [1] := by
  decide

/-- Witness for C9 applied to a concrete two-name handler map. -/
theorem naboo_c9_witness :
    hGet (((Naboo.new.on "a" 1).on "b" 2).off (some "a") none).handlers "b" =
      hGet ((Naboo.new.on "a" 1).on "b" 2).handlers "b" ∧
    hGet (((Naboo.new.on "a" 1).on "b" 2).off (some "a") (some 9)).handlers "b" =
      hGet ((Naboo.new.on "a" 1).on "b" 2).handlers "b" ∧
    hGet (((Naboo.new.on "a" 1).on "b" 2).off none none).handlers "a" = none := by
  have t := naboo_c9_off_amended ((Naboo.new.on "a" 1).on "b" 2) "a" "b" 9 (by decide)
  exact ⟨t.1 (by decide), t.2.2.1 (by decide) "b", t.2.2.2 "a"⟩

/-- C3 (amended): duration and delay are taken in milliseconds and divided
by 1000 for the CSS seconds output; duration falls back to its default 400
both when parseInt fails AND when it parses 0 (the source uses
`parseInt(...) || 400` and 0 is falsy, so an explicit numeric duration of
0 yields 400, not 0), and is otherwise the parsed value clamped to at
least 0; delay is the parsed value, with 0 on parse failure. -/
theorem naboo_c3_amended (v : JSVal) :
    durationMs false v =
      (match jsParseInt v with
       | none => 400
       | some n => if n = 0 then 400 else max n 0) ∧
    parsedDelay v = (jsParseInt v).getD 0 ∧
    durationSec false v = (durationMs false v : Rat) / 1000 ∧
    delaySec v = (parsedDelay v : Rat) / 1000 ∧
    durationSec false (JSVal.vnum 2000) = 2 ∧
    delaySec (JSVal.vnum 500) = 1 / 2 := by
  refine ⟨?_, ?_, rfl, rfl, ?_, ?_⟩
  · show max (jsOrDefault (jsParseInt v) 400) 0 = _
    cases hp : jsParseInt v with
    | none => decide
    | some n =>
      by_cases hn : n = 0
      · subst hn; decide
      · have hb : (n == 0) = false := by simpa using hn
        simp only [jsOrDefault, hb, Bool.false_eq_true, if_false, if_neg hn]
  · show jsOrDefault (jsParseInt v) 0 = _
    cases hp : jsParseInt v with
    | none => rfl
    | some n =>
      by_cases hn : n = 0
      · subst hn; rfl
      · have hb : (n == 0) = false := by simpa using hn
        simp [jsOrDefault, hb]
  · have h : durationMs false (JSVal.vnum 2000) = 2000 := by decide
    rw [durationSec, h]
    norm_num
  · have h : parsedDelay (JSVal.vnum 500) = 500 := by decide
    rw [delaySec, h]
    norm_num

/-- Counterexample to C3 as stated: an explicit numeric duration of 0
parses to 0, which is falsy, so `parseInt(opt.duration, 10) || 400`
yields the default 400 rather than 0. -/
theorem naboo_c3_zero_duration_counterexample :
    durationMs false (JSVal.vnum 0) = 400 ∧ durationMs false (JSVal.vnum 0) ≠ 0 := by
  decide

/-- C2 (code evaluation at the failing input): `getAttribute` returns a
string (or null), and `nabooNum !== +nabooNum` is true for every string
and for null, so the counter is reset to 0 before each increment — after
two overlapping invocations the attribute is "1" instead of "2", and the
first completion decrements it to "0" and fires the `cssReset` style
clear (and the user callback) while the second invocation is still
active. -/
theorem naboo_c2_premature_reset :
    overlapTwice.nabooAttr = JSVal.vstr "1" ∧
    (wrappedCallbackBody overlapTwice).nabooAttr = JSVal.vstr "0" ∧
    (wrappedCallbackBody overlapTwice).resets = 1 ∧
    (wrappedCallbackBody overlapTwice).cbCount = 1 := by
  decide

lemma pRun_le (m : Nat) :
    ∀ j : Nat, j ≤ m → pRun (m : Int) j = ((m : Int) - j, 0) := by
  intro j
  induction j with
  | zero => intro _; simp [pRun]
  | succ j ih =>
    intro hj
    have hj' : j ≤ m := Nat.le_of_succ_le hj
    have hlt : (j : Int) < (m : Int) := by exact_mod_cast hj
    rw [pRun, ih hj']
    show ((m : Int) - j - 1, if (((m : Int) - j) == 0) = true then 0 + 1 else 0) = _
    have h0 : (((m : Int) - j) == 0) = false := by simp; omega
    rw [h0, if_neg (by simp)]
    simp only [Prod.mk.injEq]
    refine ⟨by push_cast; ring, by trivial⟩

/-- C1 (code evaluation at the failing input): the parallel plugin's
completion callback tests `n-- === 0`, which compares the counter against
0 before decrementing, so with m children the m end events compare
m, m-1, …, 1 against 0 and `next` is never invoked — the outer sequence
never advances, for any number of children; `next` would fire only on a
phantom (m+1)-th completion. -/
theorem naboo_c1_p_never_advances :
    (∀ m : Nat, (pluginP m).2 = 0) ∧
    pluginP 3 = (0, 0) ∧
    pRun 3 4 = (-1, 1) := by
  refine ⟨?_, by decide, by decide⟩
  intro m
  rw [pluginP, pRun_le m m le_rfl]

/-- C10: when the dom argument is falsy (null/undefined) or the property
argument's class tag is not "[object Object]", Naboo.transition leaves the
DOM-target state completely unchanged: no attribute or style write, no
listener, no timer, and no callback invocation. -/
theorem naboo_c10_guard_noop (dt : Bool) (pc : String) (toolOff : Bool) (od : JSVal)
    (w : DomState) (h : dt = false ∨ pc ≠ "[object Object]") :
    Naboo.transition dt pc toolOff od w = w := by
  have hc : (dt && (pc == "[object Object]")) = false := by
    rcases h with h | h
    · simp [h]
    · simp [h]
  rw [Naboo.transition, hc]
  rfl

/-- Witness for C10: a falsy dom argument with an otherwise well-formed
call leaves a concrete fresh target state unchanged. -/
theorem naboo_c10_witness :
    Naboo.transition false "[object Object]" false (JSVal.vnum 400)
      { nabooAttr := JSVal.vnull, styleWrites := 0, listeners := 0, timersSet := 0,
        resets := 0, cbCount := 0 } =
      { nabooAttr := JSVal.vnull, styleWrites := 0, listeners := 0, timersSet := 0,
        resets := 0, cbCount := 0 } :=
  naboo_c10_guard_noop false "[object Object]" false (JSVal.vnum 400) _ (Or.inl rfl)
